import Mathlib

/-!
Verification of the PSIAnalyzer core (`psi.py`) against its specification.

The two stages of the analyzer are embedded over exact rationals:

* `group_creator` (lines 106-118): `cut_points` models the percentile grid
  built with `np.percentile`, and `actualGroups` models the group indices
  assigned with `np.digitize(..., right=True) + 1`.
* `_psi_calculator` (lines 121-164): `actualPct`, `expectedPctRaw` and
  `flooredExpectedPct` model the per-group proportions of the scoring loop,
  `group_psi` the per-group term, and `psi_calculator` the full stateful
  method including its appends to the instance-level lists.

Rationals stand for the IEEE doubles of the reference program; where the
distinction matters (the value class of `np.log(0)` and of products with
infinities), the class of the float result is tracked by `group_psi_class`.
-/

/-- Ascending sort of a rational list, modelling `np.sort` (line 108). -/
def sortQ (l : List ℚ) : List ℚ := l.insertionSort (· ≤ ·)

/-- Value of a sorted list read at fractional position `pos`, interpolating
linearly between the two neighbouring order statistics: with `i = ⌊pos⌋`,
the value is `s[i] + (pos - i) * (s[i+1] - s[i])` when `i + 1` is a valid
index, and `s[i]` otherwise. -/
def interpAt (s : List ℚ) (pos : ℚ) : ℚ :=
  let i : ℕ := (⌊pos⌋).toNat
  let frac : ℚ := pos - (i : ℚ)
  if i + 1 < s.length then s.getD i 0 + frac * (s.getD (i + 1) 0 - s.getD i 0)
  else s.getD i 0

/-- Linear-interpolation empirical percentile of a sorted list at level `q`
(in percent), modelling `np.percentile` with its default interpolation: the
target position is `q / 100 * (n - 1)` for a list of length `n`. -/
def percentile (s : List ℚ) (q : ℚ) : ℚ :=
  interpAt s (q / 100 * ((s.length : ℚ) - 1))

/-- Cut points computed by `group_creator` (lines 108-112): percentiles of
the sorted actual data at levels `(100 / k) * c` for `c = 0 .. k`. -/
def cut_points (actual : List ℚ) (k : ℕ) : List ℚ :=
  (List.range (k + 1)).map
    (fun (c : ℕ) => percentile (sortQ actual) (100 / (k : ℚ) * (c : ℚ)))

/-- Modelling `np.digitize(x, bins, right=True)` for non-decreasing `bins`:
the index `i` with `bins[i-1] < x ≤ bins[i]`, equivalently (as for
`np.searchsorted` with `side=left`) the number of entries of `bins` that are
strictly below `x`. -/
def digitizeRight (bins : List ℚ) (x : ℚ) : ℕ :=
  bins.countP (fun b => decide (b < x))

/-- Group indices assigned to the actual samples by `group_creator`
(lines 113-115): `np.digitize(self.actual, bins=self.cut_points, right=True) + 1`. -/
def actualGroups (actual : List ℚ) (k : ℕ) : List ℕ :=
  actual.map (fun x => digitizeRight (cut_points actual k) x + 1)

/-- Number of samples `x` with `lo ≤ x < hi`, as summed on lines 135-138. -/
def countIco (data : List ℚ) (lo hi : ℚ) : ℕ :=
  data.countP (fun x => decide (lo ≤ x ∧ x < hi))

/-- Number of samples `x` with `lo ≤ x ≤ hi`, as summed on lines 145-148. -/
def countIcc (data : List ℚ) (lo hi : ℚ) : ℕ :=
  data.countP (fun x => decide (lo ≤ x ∧ x ≤ hi))

/-- The proportion `actual_perc` of the scoring loop for 0-based group index
`i` (lines 135-138): samples in `[cut_points[i], cut_points[i+1])` divided by
`len(actual)`.  The strict upper bound applies to every group of the actual
dataset, the last one included. -/
def actualPct (actual : List ℚ) (cps : List ℚ) (i : ℕ) : ℚ :=
  (countIco actual (cps.getD i 0) (cps.getD (i + 1) 0) : ℚ) / (actual.length : ℚ)

/-- The proportion `expected_perc` before the zero floor (lines 139-148):
strict upper bound for the groups `0 .. k-2`, inclusive upper bound for the
last group (`cut_index + 1 == self.group`). -/
def expectedPctRaw (expected : List ℚ) (cps : List ℚ) (k i : ℕ) : ℚ :=
  if i + 1 = k then
    (countIcc expected (cps.getD i 0) (cps.getD (i + 1) 0) : ℚ) / (expected.length : ℚ)
  else
    (countIco expected (cps.getD i 0) (cps.getD (i + 1) 0) : ℚ) / (expected.length : ℚ)

/-- The zero floor of lines 150-151: an expected proportion equal to `0` is
replaced by `0.000001` before being used in the logarithm. -/
def flooredExpectedPct (expected : List ℚ) (cps : List ℚ) (k i : ℕ) : ℚ :=
  if expectedPctRaw expected cps k i = 0 then 1 / 1000000
  else expectedPctRaw expected cps k i

/-- Per-group PSI term of lines 156-158:
`(actual_perc - expected_perc) * np.log(actual_perc / expected_perc)`. -/
noncomputable def group_psi (a e : ℚ) : ℝ :=
  ((a : ℝ) - (e : ℝ)) * Real.log ((a : ℝ) / (e : ℝ))

/-- Per-group contribution as the specification words it:
`(actual_pct - expected_pct) * ln(expected_pct / actual_pct)`, with the ratio
inside the logarithm being expected over actual.  This definition follows the
words of the specification and is compared against `group_psi`, which is
taken from the source. -/
noncomputable def group_psi_spec (a e : ℚ) : ℝ :=
  ((a : ℝ) - (e : ℝ)) * Real.log ((e : ℝ) / (a : ℝ))

/-- The `k` per-group terms appended by one run of the scoring loop
(lines 130-160) with respect to the given cut points. -/
noncomputable def contribsWith (actual expected : List ℚ) (cps : List ℚ) (k : ℕ) : List ℝ :=
  (List.range k).map
    (fun i => group_psi (actualPct actual cps i) (flooredExpectedPct expected cps k i))

/-- The `k` per-group terms produced by a first call of `_psi_calculator` on a
fresh instance, using the cut points derived from the actual dataset. -/
noncomputable def contribs (actual expected : List ℚ) (k : ℕ) : List ℝ :=
  contribsWith actual expected (cut_points actual k) k

/-- The PSI value returned by a first call of `_psi_calculator` on a fresh
instance: the sum of the per-group terms (line 162). -/
noncomputable def psiValue (actual expected : List ℚ) (k : ℕ) : ℝ :=
  (contribs actual expected k).sum

/-- Sum of the `k` per-group actual proportions computed by the scoring loop. -/
def sumActualPct (actual : List ℚ) (k : ℕ) : ℚ :=
  ((List.range k).map (fun i => actualPct actual (cut_points actual k) i)).sum

/-- Mutable state of a `PSIAnalyzer` instance: the constructor arguments
together with the derived fields created on lines 96-103 and mutated by
`group_creator` and `_psi_calculator`. -/
structure PsiState where
  actual : List ℚ
  expected : List ℚ
  group : ℕ
  cutPoints : Option (List ℚ)
  actual_percentages : List ℚ
  expected_percentages : List ℚ
  group_psi_values : List ℝ
  psi : Option ℝ

/-- State of a freshly constructed instance (lines 96-103): no cut points,
empty accumulator lists, no psi. -/
def initState (actual expected : List ℚ) (k : ℕ) : PsiState :=
  ⟨actual, expected, k, none, [], [], [], none⟩

/-- One call of `_psi_calculator` (lines 121-164): cut points are computed if
absent and kept otherwise; the freshly computed percentages and per-group
terms are appended to the instance-level lists; `psi` is the sum of the whole
accumulated `group_psi_values` list; the returned pair is
`(psi, group_psi_values)`. -/
noncomputable def psi_calculator (s : PsiState) : PsiState × (ℝ × List ℝ) :=
  let cps := s.cutPoints.getD (cut_points s.actual s.group)
  let gpv := s.group_psi_values ++ contribsWith s.actual s.expected cps s.group
  let p := gpv.sum
  ({ s with
      cutPoints := some cps
      actual_percentages :=
        s.actual_percentages ++ (List.range s.group).map (fun i => actualPct s.actual cps i)
      expected_percentages :=
        s.expected_percentages ++
          (List.range s.group).map (fun i => flooredExpectedPct s.expected cps s.group i)
      group_psi_values := gpv
      psi := some p },
    (p, gpv))

/-- Input validation performed by `__init__` (lines 60-78) for inputs that
are already numeric lists: the container-type checks pass by construction,
and the group count must be an integer (statically true for `g : ℤ`) of value
at least 2.  Neither dataset is checked for emptiness. -/
def initCheck (actual expected : List ℚ) (g : ℤ) : Except String Unit :=
  if g < 2 then Except.error "group must be bigger or equal to 2"
  else Except.ok ()

/-- Classification of an IEEE double value. -/
inductive FClass where
  | finite
  | posInf
  | negInf
  | nan
deriving DecidableEq

/-- Class of the value of the float expression
`(a - e) * np.log(a / e)` of lines 156-158 under IEEE-754 semantics, for
exact rational operands within range (no overflow or underflow): `np.log` of
a positive argument is finite, `np.log(0)` is negative infinity, `np.log` of
a negative argument is NaN; a finite negative factor times negative infinity
gives positive infinity, a finite positive factor times negative infinity
gives negative infinity, and zero times an infinity gives NaN. -/
def group_psi_class (a e : ℚ) : FClass :=
  if 0 < a / e then FClass.finite
  else if a / e = 0 then
    (if a - e < 0 then FClass.posInf
     else if 0 < a - e then FClass.negInf
     else FClass.nan)
  else FClass.nan

/-- Dataset of the concrete scenario of the specification. -/
def sampleD : List ℚ := [1, 2, 3, 4, 5, 6, 7, 8, 9, 10]

/-- A dataset of four equal values, used to exercise empty groups. -/
def allOnes4 : List ℚ := [1, 1, 1, 1]

/-! Helper lemmas about sorting and list access. -/

lemma sortQ_sorted (l : List ℚ) : (sortQ l).Sorted (· ≤ ·) :=
  List.sorted_insertionSort (· ≤ ·) l

lemma sortQ_perm (l : List ℚ) : List.Perm (sortQ l) l :=
  List.perm_insertionSort (· ≤ ·) l

lemma sortQ_length (l : List ℚ) : (sortQ l).length = l.length :=
  (sortQ_perm l).length_eq

lemma sorted_getD_mono {s : List ℚ} (hs : s.Sorted (· ≤ ·)) {i j : ℕ}
    (hij : i ≤ j) (hj : j < s.length) : s.getD i 0 ≤ s.getD j 0 := by
  have hi : i < s.length := lt_of_le_of_lt hij hj
  rw [List.getD_eq_getElem s 0 hi, List.getD_eq_getElem s 0 hj]
  exact hs.rel_get_of_le (a := ⟨i, hi⟩) (b := ⟨j, hj⟩) hij

lemma getD_mem {s : List ℚ} {i : ℕ} (h : i < s.length) : s.getD i 0 ∈ s := by
  rw [List.getD_eq_getElem s 0 h]
  exact s.getElem_mem h

/-- The head of the ascending sort is a lower bound of the list. -/
lemma sortQ_getD_zero_le {l : List ℚ} {x : ℚ} (hx : x ∈ l) :
    (sortQ l).getD 0 0 ≤ x := by
  have hx2 : x ∈ sortQ l := (sortQ_perm l).mem_iff.mpr hx
  obtain ⟨⟨j, hj⟩, hget⟩ := List.mem_iff_get.mp hx2
  have hmono := sorted_getD_mono (sortQ_sorted l) (Nat.zero_le j) hj
  rw [List.getD_eq_getElem _ 0 hj] at hmono
  rw [← hget]
  simpa using hmono

/-- The last entry of the ascending sort is an upper bound of the list. -/
lemma le_sortQ_getD_last {l : List ℚ} {x : ℚ} (hx : x ∈ l) :
    x ≤ (sortQ l).getD (l.length - 1) 0 := by
  have hx2 : x ∈ sortQ l := (sortQ_perm l).mem_iff.mpr hx
  obtain ⟨⟨j, hj⟩, hget⟩ := List.mem_iff_get.mp hx2
  have hlen : (sortQ l).length = l.length := sortQ_length l
  have hj2 : j ≤ l.length - 1 := Nat.le_sub_one_of_lt (hlen ▸ hj)
  have hlast : l.length - 1 < (sortQ l).length := by omega
  have hmono := sorted_getD_mono (sortQ_sorted l) hj2 hlast
  rw [List.getD_eq_getElem _ 0 hj] at hmono
  rw [← hget]
  simpa using hmono

/-- Linear interpolation into a sorted list is monotone in the position. -/
lemma interpAt_mono {s : List ℚ} (hs : s.Sorted (· ≤ ·)) {p p2 : ℚ}
    (hp0 : 0 ≤ p) (hpp : p ≤ p2) (hpn : p2 ≤ (s.length : ℚ) - 1) :
    interpAt s p ≤ interpAt s p2 := by
  have hp20 : 0 ≤ p2 := le_trans hp0 hpp
  have hfl1 : (0 : ℤ) ≤ ⌊p⌋ := Int.floor_nonneg.mpr hp0
  have hfl2 : (0 : ℤ) ≤ ⌊p2⌋ := Int.floor_nonneg.mpr hp20
  simp only [interpAt]
  set i₁ : ℕ := (⌊p⌋).toNat with hi₁
  set i₂ : ℕ := (⌊p2⌋).toNat with hi₂
  have hcast1 : (i₁ : ℚ) = ((⌊p⌋ : ℤ) : ℚ) := by
    have h := Int.toNat_of_nonneg hfl1
    exact_mod_cast congrArg (fun z : ℤ => (z : ℚ)) h
  have hcast2 : (i₂ : ℚ) = ((⌊p2⌋ : ℤ) : ℚ) := by
    have h := Int.toNat_of_nonneg hfl2
    exact_mod_cast congrArg (fun z : ℤ => (z : ℚ)) h
  have hle1 : (i₁ : ℚ) ≤ p := by rw [hcast1]; exact Int.floor_le p
  have hle2 : (i₂ : ℚ) ≤ p2 := by rw [hcast2]; exact Int.floor_le p2
  have hlt1 : p < (i₁ : ℚ) + 1 := by rw [hcast1]; exact Int.lt_floor_add_one p
  have hi12 : i₁ ≤ i₂ := by
    rw [hi₁, hi₂]
    exact Int.toNat_le_toNat (Int.floor_le_floor hpp)
  have hi2n : i₂ + 1 ≤ s.length := by
    have h1 : (i₂ : ℚ) ≤ (s.length : ℚ) - 1 := le_trans hle2 hpn
    have h2 : (i₂ : ℚ) + 1 ≤ (s.length : ℚ) := by linarith
    exact_mod_cast h2
  rcases eq_or_lt_of_le hi12 with heq | hlt
  · rw [heq]
    by_cases h : i₂ + 1 < s.length
    · simp only [if_pos h]
      have hΔ : 0 ≤ s.getD (i₂ + 1) 0 - s.getD i₂ 0 :=
        sub_nonneg.mpr (sorted_getD_mono hs (Nat.le_succ i₂) h)
      have hfr : p - (i₂ : ℚ) ≤ p2 - (i₂ : ℚ) := by linarith
      nlinarith [mul_le_mul_of_nonneg_right hfr hΔ]
    · simp only [if_neg h]
      exact le_refl _
  · have h1n : i₁ + 1 < s.length := by omega
    have hg1 : s.getD i₁ 0 + (p - (i₁ : ℚ)) * (s.getD (i₁ + 1) 0 - s.getD i₁ 0) ≤
        s.getD (i₁ + 1) 0 := by
      have hΔ : 0 ≤ s.getD (i₁ + 1) 0 - s.getD i₁ 0 :=
        sub_nonneg.mpr (sorted_getD_mono hs (Nat.le_succ i₁) h1n)
      have hf1 : p - (i₁ : ℚ) ≤ 1 := by linarith
      nlinarith [mul_le_mul_of_nonneg_right hf1 hΔ]
    have hg2 : s.getD (i₁ + 1) 0 ≤ s.getD i₂ 0 :=
      sorted_getD_mono hs (by omega) (by omega)
    have hg3 : s.getD i₂ 0 ≤
        (if i₂ + 1 < s.length then
          s.getD i₂ 0 + (p2 - (i₂ : ℚ)) * (s.getD (i₂ + 1) 0 - s.getD i₂ 0)
         else s.getD i₂ 0) := by
      by_cases h : i₂ + 1 < s.length
      · simp only [if_pos h]
        have hΔ : 0 ≤ s.getD (i₂ + 1) 0 - s.getD i₂ 0 :=
          sub_nonneg.mpr (sorted_getD_mono hs (Nat.le_succ i₂) h)
        have hf2 : 0 ≤ p2 - (i₂ : ℚ) := by linarith
        nlinarith [mul_nonneg hf2 hΔ]
      · simp only [if_neg h]
        exact le_refl _
    rw [if_pos h1n]
    exact le_trans (le_trans hg1 hg2) hg3

/-- Interpolation at position 0 reads the first entry. -/
lemma interpAt_zero (s : List ℚ) : interpAt s 0 = s.getD 0 0 := by
  simp [interpAt]

/-- Interpolation at the final position reads the last entry. -/
lemma interpAt_last {s : List ℚ} (h : s ≠ []) :
    interpAt s ((s.length : ℚ) - 1) = s.getD (s.length - 1) 0 := by
  have hn : 1 ≤ s.length := List.length_pos.mpr h
  have hcast : ((s.length : ℚ) - 1) = ((s.length - 1 : ℕ) : ℚ) := by
    push_cast [hn]
    ring
  have hcond : ¬ ((s.length - 1) + 1 < s.length) := by omega
  simp only [interpAt, hcast, Int.floor_natCast, Int.toNat_natCast]
  simp [hcond]

/-- The percentile at level 0 is the first entry of the sorted list. -/
lemma percentile_zero (s : List ℚ) : percentile s 0 = s.getD 0 0 := by
  have h : (0 : ℚ) / 100 * ((s.length : ℚ) - 1) = 0 := by norm_num
  rw [percentile, h, interpAt_zero]

/-- The percentile at level 100 is the last entry of the sorted list. -/
lemma percentile_hundred {s : List ℚ} (h : s ≠ []) :
    percentile s 100 = s.getD (s.length - 1) 0 := by
  have h100 : (100 : ℚ) / 100 * ((s.length : ℚ) - 1) = (s.length : ℚ) - 1 := by norm_num
  rw [percentile, h100, interpAt_last h]

/-- The percentile of a sorted list is monotone in the level. -/
lemma percentile_mono {s : List ℚ} (hs : s.Sorted (· ≤ ·)) (h : s ≠ []) {q q2 : ℚ}
    (h0 : 0 ≤ q) (hq : q ≤ q2) (h100 : q2 ≤ 100) :
    percentile s q ≤ percentile s q2 := by
  have hn : 1 ≤ s.length := List.length_pos.mpr h
  have hnn : (0 : ℚ) ≤ (s.length : ℚ) - 1 := by
    have h1 : (1 : ℚ) ≤ (s.length : ℚ) := by exact_mod_cast hn
    linarith
  apply interpAt_mono hs
  · exact mul_nonneg (div_nonneg h0 (by norm_num)) hnn
  · have hdiv : q / 100 ≤ q2 / 100 := by linarith
    exact mul_le_mul_of_nonneg_right hdiv hnn
  · have hdiv : q2 / 100 ≤ 1 := by linarith
    calc q2 / 100 * ((s.length : ℚ) - 1) ≤ 1 * ((s.length : ℚ) - 1) :=
          mul_le_mul_of_nonneg_right hdiv hnn
    _ = (s.length : ℚ) - 1 := one_mul _

/-- Length of the cut-point list. -/
lemma cut_points_length (actual : List ℚ) (k : ℕ) :
    (cut_points actual k).length = k + 1 := by
  rw [cut_points, List.length_map, List.length_range]

/-- Entry `c` of the cut-point list is the percentile at level `100 / k * c`. -/
lemma cut_points_getD {actual : List ℚ} {k c : ℕ} (hc : c < k + 1) :
    (cut_points actual k).getD c 0 =
      percentile (sortQ actual) (100 / (k : ℚ) * (c : ℚ)) := by
  have hc2 : c < (cut_points actual k).length := by
    rw [cut_points_length]; exact hc
  rw [List.getD_eq_getElem _ 0 hc2]
  simp only [cut_points, List.getElem_map, List.getElem_range]

lemma sortQ_ne_nil {l : List ℚ} (h : l ≠ []) : sortQ l ≠ [] := by
  intro hs
  apply h
  have := sortQ_length l
  rw [hs] at this
  exact List.length_eq_zero.mp this.symm

/-- The first cut point is the head of the sorted actual data. -/
lemma cut_points_first {actual : List ℚ} {k : ℕ} (hk : 1 ≤ k) :
    (cut_points actual k).getD 0 0 = (sortQ actual).getD 0 0 := by
  rw [cut_points_getD (by omega)]
  have h0 : 100 / (k : ℚ) * ((0 : ℕ) : ℚ) = 0 := by norm_num
  rw [h0, percentile_zero]

/-- The last cut point is the last entry of the sorted actual data. -/
lemma cut_points_last {actual : List ℚ} {k : ℕ} (h : actual ≠ []) (hk : 1 ≤ k) :
    (cut_points actual k).getD k 0 = (sortQ actual).getD (actual.length - 1) 0 := by
  rw [cut_points_getD (by omega)]
  have hkq : ((k : ℚ)) ≠ 0 := by
    have : (0 : ℚ) < (k : ℚ) := by exact_mod_cast (by omega : 0 < k)
    exact ne_of_gt this
  have h100 : 100 / (k : ℚ) * ((k : ℕ) : ℚ) = 100 := by
    field_simp
  rw [h100, percentile_hundred (sortQ_ne_nil h), sortQ_length]

/-- The cut points are monotonically non-decreasing. -/
lemma cut_points_sorted {actual : List ℚ} {k : ℕ} (h : actual ≠ []) (hk : 1 ≤ k) :
    (cut_points actual k).Sorted (· ≤ ·) := by
  rw [List.Sorted, List.pairwise_iff_get]
  intro i j hij
  have hlen : (cut_points actual k).length = k + 1 := cut_points_length actual k
  have hi : (i : ℕ) < k + 1 := by rw [← hlen]; exact i.isLt
  have hj : (j : ℕ) < k + 1 := by rw [← hlen]; exact j.isLt
  rw [List.get_eq_getElem, List.get_eq_getElem,
    ← List.getD_eq_getElem _ 0 i.isLt, ← List.getD_eq_getElem _ 0 j.isLt,
    cut_points_getD hi, cut_points_getD hj]
  have hkq : (0 : ℚ) < (k : ℚ) := by exact_mod_cast by omega
  apply percentile_mono (sortQ_sorted actual) (sortQ_ne_nil h)
  · positivity
  · have hijq : ((i : ℕ) : ℚ) ≤ ((j : ℕ) : ℚ) := by
      exact_mod_cast le_of_lt (Fin.lt_iff_val_lt_val.mp hij)
    have hpos : 0 ≤ 100 / (k : ℚ) := by positivity
    exact mul_le_mul_of_nonneg_left hijq hpos
  · have hjk : ((j : ℕ) : ℚ) ≤ (k : ℚ) := by exact_mod_cast by omega
    calc 100 / (k : ℚ) * ((j : ℕ) : ℚ) ≤ 100 / (k : ℚ) * (k : ℚ) :=
          mul_le_mul_of_nonneg_left hjk (by positivity)
    _ = 100 := by field_simp

/-- C8: for every non-empty actual dataset and valid group count `k`, the cut
points produced by `group_creator` number exactly `k + 1`, are monotonically
non-decreasing, and their first and last entries equal the minimum and the
maximum of the actual dataset. -/
theorem c8_cut_points_spec (actual : List ℚ) (k : ℕ) (h : actual ≠ []) (hk : 2 ≤ k) :
    (cut_points actual k).length = k + 1 ∧
    (cut_points actual k).Sorted (· ≤ ·) ∧
    ((cut_points actual k).getD 0 0 ∈ actual ∧
      ∀ x ∈ actual, (cut_points actual k).getD 0 0 ≤ x) ∧
    ((cut_points actual k).getD k 0 ∈ actual ∧
      ∀ x ∈ actual, x ≤ (cut_points actual k).getD k 0) := by
  have hk1 : 1 ≤ k := by omega
  have hlen : 0 < (sortQ actual).length := by
    rw [sortQ_length]
    exact List.length_pos.mpr h
  refine ⟨cut_points_length actual k, cut_points_sorted h hk1, ⟨?_, ?_⟩, ⟨?_, ?_⟩⟩
  · rw [cut_points_first hk1]
    exact (sortQ_perm actual).mem_iff.mp (getD_mem hlen)
  · intro x hx
    rw [cut_points_first hk1]
    exact sortQ_getD_zero_le hx
  · rw [cut_points_last h hk1]
    have hidx : actual.length - 1 < (sortQ actual).length := by
      rw [sortQ_length]
      have := List.length_pos.mpr h
      omega
    exact (sortQ_perm actual).mem_iff.mp (getD_mem hidx)
  · intro x hx
    rw [cut_points_last h hk1]
    exact le_sortQ_getD_last hx

/-- Witness for C8 at `actual = [1, 2]`, `k = 2`. -/
theorem c8_cut_points_spec_witness :
    (cut_points [1, 2] 2).length = 2 + 1 ∧
    (cut_points [1, 2] 2).Sorted (· ≤ ·) ∧
    ((cut_points [1, 2] 2).getD 0 0 ∈ ([1, 2] : List ℚ) ∧
      ∀ x ∈ ([1, 2] : List ℚ), (cut_points [1, 2] 2).getD 0 0 ≤ x) ∧
    ((cut_points [1, 2] 2).getD 2 0 ∈ ([1, 2] : List ℚ) ∧
      ∀ x ∈ ([1, 2] : List ℚ), x ≤ (cut_points [1, 2] 2).getD 2 0) :=
  c8_cut_points_spec [1, 2] 2 (by simp) (le_refl 2)

lemma countP_lt_length_of_mem_not {l : List ℚ} {p : ℚ → Bool} {b : ℚ}
    (hb : b ∈ l) (hpb : p b = false) : l.countP p < l.length := by
  rcases lt_or_eq_of_le (List.countP_le_length p (l := l)) with h | h
  · exact h
  · exfalso
    have hall := List.countP_eq_length.mp h
    rw [hall b hb] at hpb
    simp at hpb

/-- C9 amended: the group index assigned by `group_creator` to each actual
sample lies in the range `1 .. k + 1` (not `1 .. k`): the index is one plus
the number of cut points strictly below the sample, and for the sample equal
to the maximum all cut points except the last can lie strictly below it. -/
theorem c9_group_range (actual : List ℚ) (k : ℕ) (h : actual ≠ []) (hk : 2 ≤ k) :
    ∀ g ∈ actualGroups actual k, 1 ≤ g ∧ g ≤ k + 1 := by
  intro g hg
  obtain ⟨x, hx, rfl⟩ := List.mem_map.mp hg
  refine ⟨by omega, ?_⟩
  have hmax : x ≤ (cut_points actual k).getD k 0 := by
    rw [cut_points_last h (by omega)]
    exact le_sortQ_getD_last hx
  have hmem : (cut_points actual k).getD k 0 ∈ cut_points actual k :=
    getD_mem (by rw [cut_points_length]; omega)
  have hfalse : (fun b => decide (b < x)) ((cut_points actual k).getD k 0) = false := by
    simp only [decide_eq_false_iff_not, not_lt]
    exact hmax
  have hlt : digitizeRight (cut_points actual k) x < (cut_points actual k).length :=
    countP_lt_length_of_mem_not hmem hfalse
  rw [cut_points_length] at hlt
  omega

/-- Concrete group assignment for `actual = [1, 2]`, `k = 2`: the cut points
are `[1, 3/2, 2]` and the maximum sample `2` has two cut points strictly
below it, so it is assigned group `3`. -/
lemma actualGroups_eval : actualGroups [1, 2] 2 = [1, 3] := by
  norm_num [actualGroups, digitizeRight, cut_points, percentile, interpAt, sortQ,
    List.insertionSort, List.orderedInsert, List.range_succ, List.countP_cons]

/-- Witness for the amended C9 at `actual = [1, 2]`, `k = 2`, applied to the
group index assigned to the second sample. -/
theorem c9_group_range_witness :
    1 ≤ (actualGroups [1, 2] 2).getD 1 0 ∧ (actualGroups [1, 2] 2).getD 1 0 ≤ 2 + 1 :=
  c9_group_range [1, 2] 2 (by simp) (le_refl 2) ((actualGroups [1, 2] 2).getD 1 0)
    (by rw [actualGroups_eval]; simp)

/-- C9 counterexample: with `actual = [1, 2]` and `k = 2`, the sample `2`
(the maximum) is assigned group index `3 > k`, refuting the claim that every
assigned index lies in `1 .. k`. -/
theorem c9_counterexample : ¬ (∀ g ∈ actualGroups [1, 2] 2, 1 ≤ g ∧ g ≤ 2) := by
  intro hall
  have h3 : (3 : ℕ) ∈ actualGroups [1, 2] 2 := by
    rw [actualGroups_eval]
    simp
  have := hall 3 h3
  omega

/-- C2: with `actual = [1, 2]` and `k = 2` the per-group actual proportions
computed by `_psi_calculator` sum to `1/2`, not `1`: the maximum sample `2`
is counted in no group, because the upper bound of the last group is
exclusive for the actual dataset (the inclusive recount on lines 144-148 is
applied only to `expected_perc`). -/
theorem c2_sum_actual_pct_failing :
    sumActualPct [1, 2] 2 = 1 / 2 ∧ sumActualPct [1, 2] 2 ≠ 1 := by
  have heval : sumActualPct [1, 2] 2 = 1 / 2 := by
    norm_num [sumActualPct, actualPct, countIco, cut_points, percentile, interpAt, sortQ,
      List.insertionSort, List.orderedInsert, List.range_succ, List.countP_cons]
  refine ⟨heval, ?_⟩
  rw [heval]
  norm_num

/-- C5: the constructor validation accepts an empty expected dataset and an
empty actual dataset alike; no invalid-input error is raised for emptiness
(only container types and the group count are checked on lines 60-78). -/
theorem c5_init_accepts_empty :
    initCheck [1, 2] [] 2 = Except.ok () ∧ initCheck [] [1, 2] 2 = Except.ok () :=
  ⟨rfl, rfl⟩

lemma expectedPctRaw_nonneg (expected cps : List ℚ) (k i : ℕ) :
    0 ≤ expectedPctRaw expected cps k i := by
  unfold expectedPctRaw
  split <;> positivity

lemma flooredExpectedPct_pos (expected cps : List ℚ) (k i : ℕ) :
    0 < flooredExpectedPct expected cps k i := by
  unfold flooredExpectedPct
  split
  · norm_num
  · rename_i hne
    exact lt_of_le_of_ne (expectedPctRaw_nonneg expected cps k i) (Ne.symm hne)

/-- C10: on every iteration of the scoring loop, the expected proportion used
in the contribution formula is strictly positive after the zero-floor
substitution, so the ratio inside the logarithm never divides by zero. -/
theorem c10_floored_expected_pos (expected cps : List ℚ) (k i : ℕ) :
    0 < flooredExpectedPct expected cps k i :=
  flooredExpectedPct_pos expected cps k i

lemma actualPct_nonneg (actual cps : List ℚ) (i : ℕ) : 0 ≤ actualPct actual cps i := by
  unfold actualPct
  positivity

/-- Sign of the per-group term: with a non-negative actual proportion and a
positive (floored) expected proportion, the factors `a - e` and
`log (a / e)` always have the same sign, so the product is non-negative. -/
lemma group_psi_nonneg {a e : ℚ} (ha : 0 ≤ a) (he : 0 < e) : 0 ≤ group_psi a e := by
  unfold group_psi
  have heR : (0 : ℝ) < (e : ℝ) := by exact_mod_cast he
  rcases eq_or_lt_of_le ha with heq | hapos
  · rw [← heq]
    push_cast
    simp
  · have haR : (0 : ℝ) < (a : ℝ) := by exact_mod_cast hapos
    rcases le_total ((a : ℝ)) ((e : ℝ)) with hle | hle
    · have hlog : Real.log ((a : ℝ) / (e : ℝ)) ≤ 0 :=
        Real.log_nonpos (by positivity) (div_le_one_of_le₀ hle (le_of_lt heR))
      have hsub : (a : ℝ) - (e : ℝ) ≤ 0 := by linarith
      nlinarith
    · apply mul_nonneg
      · linarith
      · apply Real.log_nonneg
        exact (one_le_div heR).mpr hle

/-- C7: the PSI value is non-negative for all inputs: every per-group term
`(actual_pct - expected_pct) * log (actual_pct / expected_pct)` is a product
of two factors of equal sign, the floored expected proportion being positive. -/
theorem c7_psi_nonneg (actual expected : List ℚ) (k : ℕ) :
    0 ≤ psiValue actual expected k := by
  unfold psiValue contribs contribsWith
  apply List.sum_nonneg
  intro x hx
  obtain ⟨i, _, rfl⟩ := List.mem_map.mp hx
  exact group_psi_nonneg (actualPct_nonneg _ _ _) (flooredExpectedPct_pos _ _ _ _)

/-- Entry `i` of the contribution list is the per-group term of group `i`. -/
lemma contribs_getD {actual expected : List ℚ} {k i : ℕ} (hik : i < k) :
    (contribs actual expected k).getD i 0 =
      group_psi (actualPct actual (cut_points actual k) i)
        (flooredExpectedPct expected (cut_points actual k) k i) := by
  unfold contribs contribsWith
  have hlen : i < ((List.range k).map
      (fun i => group_psi (actualPct actual (cut_points actual k) i)
        (flooredExpectedPct expected (cut_points actual k) k i))).length := by
    simpa using hik
  rw [List.getD_eq_getElem _ 0 hlen]
  simp only [List.getElem_map, List.getElem_range]

/-- C1 amended: the per-group contribution computed by `_psi_calculator` is
`(actual_pct - expected_pct) * ln(actual_pct / expected_pct)`: the ratio
inside the logarithm is actual over expected, not expected over actual. -/
theorem c1_contribution_formula (actual expected : List ℚ) (k i : ℕ) (hik : i < k) :
    (contribs actual expected k).getD i 0 =
      ((actualPct actual (cut_points actual k) i : ℝ) -
        (flooredExpectedPct expected (cut_points actual k) k i : ℝ)) *
        Real.log ((actualPct actual (cut_points actual k) i : ℝ) /
          (flooredExpectedPct expected (cut_points actual k) k i : ℝ)) := by
  rw [contribs_getD hik]
  rfl

/-- Witness for the amended C1 at `actual = expected = sampleD`, `k = 2`,
group index `1`. -/
theorem c1_contribution_formula_witness :
    (contribs sampleD sampleD 2).getD 1 0 =
      ((actualPct sampleD (cut_points sampleD 2) 1 : ℝ) -
        (flooredExpectedPct sampleD (cut_points sampleD 2) 2 1 : ℝ)) *
        Real.log ((actualPct sampleD (cut_points sampleD 2) 1 : ℝ) /
          (flooredExpectedPct sampleD (cut_points sampleD 2) 2 1 : ℝ)) :=
  c1_contribution_formula sampleD sampleD 2 1 (by norm_num)

/-- Concrete cut points for the specification scenario `sampleD`, `k = 2`. -/
lemma cut_points_sampleD : cut_points sampleD 2 = [1, 11 / 2, 10] := by
  norm_num [cut_points, percentile, interpAt, sortQ, sampleD, List.insertionSort,
    List.orderedInsert, List.range_succ]
  simp
  norm_num

/-- Actual proportion of the last group in the scenario: the samples 6, 7, 8
and 9 lie in `[11/2, 10)` while the maximum 10 is excluded, giving `4/10`. -/
lemma actualPct_sampleD_one : actualPct sampleD (cut_points sampleD 2) 1 = 2 / 5 := by
  rw [cut_points_sampleD]
  norm_num [actualPct, countIco, sampleD, List.countP_cons]

/-- Expected proportion of the last group in the scenario: the samples 6, 7,
8, 9 and 10 lie in `[11/2, 10]` (inclusive recount), giving `5/10`. -/
lemma flooredExpectedPct_sampleD_one :
    flooredExpectedPct sampleD (cut_points sampleD 2) 2 1 = 1 / 2 := by
  rw [cut_points_sampleD]
  norm_num [flooredExpectedPct, expectedPctRaw, countIcc, sampleD, List.countP_cons]

/-- C1 counterexample: in the scenario `actual = expected = sampleD`, `k = 2`,
the last group has positive proportions `2/5` and `1/2`, and the contribution
computed by the code differs from the specification formula
`(actual_pct - expected_pct) * ln(expected_pct / actual_pct)`. -/
theorem c1_counterexample :
    0 < actualPct sampleD (cut_points sampleD 2) 1 ∧
    0 < flooredExpectedPct sampleD (cut_points sampleD 2) 2 1 ∧
    (contribs sampleD sampleD 2).getD 1 0 ≠
      group_psi_spec (actualPct sampleD (cut_points sampleD 2) 1)
        (flooredExpectedPct sampleD (cut_points sampleD 2) 2 1) := by
  rw [contribs_getD (by norm_num), actualPct_sampleD_one, flooredExpectedPct_sampleD_one]
  refine ⟨by norm_num, by norm_num, ?_⟩
  unfold group_psi group_psi_spec
  push_cast
  have h45 : ((2 : ℝ) / 5) / (1 / 2) = 4 / 5 := by norm_num
  have h54 : ((1 : ℝ) / 2) / (2 / 5) = 5 / 4 := by norm_num
  rw [h45, h54]
  have hlogpos : 0 < Real.log ((5 : ℝ) / 4) := Real.log_pos (by norm_num)
  have hlogneg : Real.log ((4 : ℝ) / 5) < 0 := Real.log_neg (by norm_num) (by norm_num)
  intro heq
  have hlin : Real.log ((4 : ℝ) / 5) = Real.log ((5 : ℝ) / 4) := by
    have h10 : ((2 : ℝ) / 5 - 1 / 2) = -(1 / 10) := by norm_num
    rw [h10] at heq
    linarith [heq]
  linarith

/-- Actual proportion of the first group in the scenario: the samples 1..5
lie in `[1, 11/2)`, giving `5/10`. -/
lemma actualPct_sampleD_zero : actualPct sampleD (cut_points sampleD 2) 0 = 1 / 2 := by
  rw [cut_points_sampleD]
  norm_num [actualPct, countIco, sampleD, List.countP_cons]

/-- Expected proportion of the first group in the scenario, after the floor:
`5/10`. -/
lemma flooredExpectedPct_sampleD_zero :
    flooredExpectedPct sampleD (cut_points sampleD 2) 2 0 = 1 / 2 := by
  rw [cut_points_sampleD]
  norm_num [flooredExpectedPct, expectedPctRaw, countIco, sampleD, List.countP_cons]

/-- C3: PSI of `sampleD` against itself with `k = 2`.  The cut points are
`[1, 11/2, 10]` as the claim states, but the returned psi is at least `1/50`
(its exact value is `(1/10) * ln(5/4) ≈ 0.0223`), not approximately `0`: the
maximum 10 is dropped from the actual proportions but kept in the expected
ones, so the last group compares `2/5` against `1/2`. -/
theorem c3_self_psi_positive :
    cut_points sampleD 2 = [1, 11 / 2, 10] ∧
    (1 / 50 : ℝ) ≤ psiValue sampleD sampleD 2 := by
  refine ⟨cut_points_sampleD, ?_⟩
  unfold psiValue contribs contribsWith
  rw [show List.range 2 = [0, 1] from rfl]
  simp only [List.map_cons, List.map_nil, List.sum_cons, List.sum_nil]
  rw [actualPct_sampleD_zero, flooredExpectedPct_sampleD_zero,
    actualPct_sampleD_one, flooredExpectedPct_sampleD_one]
  unfold group_psi
  push_cast
  have h45 : ((2 : ℝ) / 5) / (1 / 2) = 4 / 5 := by norm_num
  rw [h45]
  have hlog : Real.log ((4 : ℝ) / 5) ≤ (4 : ℝ) / 5 - 1 :=
    Real.log_le_sub_one_of_pos (by norm_num)
  have hone : Real.log ((1 : ℝ) / 2 / (1 / 2)) = 0 := by
    norm_num
  rw [hone]
  nlinarith [hlog]

/-- C4 counterexample: on the instance `actual = expected = [1, 2]`, `k = 2`,
a second call of `_psi_calculator` does not return the same result as the
first call: its contribution list has four entries instead of two. -/
theorem c4_counterexample :
    (psi_calculator ((psi_calculator (initState [1, 2] [1, 2] 2)).1)).2 ≠
      (psi_calculator (initState [1, 2] [1, 2] 2)).2 := by
  intro heq
  have hlen := congrArg (fun r => r.2.length) heq
  simp only [psi_calculator, initState, contribsWith, Option.getD_some, Option.getD_none,
    List.length_append, List.length_map, List.length_range, List.nil_append,
    List.length_nil] at hlen
  omega

/-- C4 amended: `_psi_calculator` is not idempotent.  Starting from a fresh
instance, the second call appends a fresh copy of the per-group terms to the
list accumulated by the first call: it returns twice the first psi and the
first contribution list concatenated with itself. -/
theorem c4_second_call_appends (actual expected : List ℚ) (k : ℕ) :
    (psi_calculator ((psi_calculator (initState actual expected k)).1)).2 =
      ((psi_calculator (initState actual expected k)).2.1 +
        (psi_calculator (initState actual expected k)).2.1,
       (psi_calculator (initState actual expected k)).2.2 ++
        (psi_calculator (initState actual expected k)).2.2) := by
  simp [psi_calculator, initState, List.sum_append]

/-- Cut points of the constant dataset `[1, 1, 1, 1]` with `k = 2`: all three
cut points coincide at 1. -/
lemma cut_points_allOnes4 : cut_points allOnes4 2 = [1, 1, 1] := by
  norm_num [cut_points, percentile, interpAt, sortQ, allOnes4, List.insertionSort,
    List.orderedInsert, List.range_succ]
  simp

/-- First-group actual proportion of the constant dataset: the half-open
interval `[1, 1)` is empty, so the proportion is `0`. -/
lemma actualPct_allOnes4_zero : actualPct allOnes4 (cut_points allOnes4 2) 0 = 0 := by
  rw [cut_points_allOnes4]
  norm_num [actualPct, countIco, allOnes4, List.countP_cons]

/-- First-group raw expected proportion of the constant dataset: also `0`,
so the zero floor fires. -/
lemma expectedPctRaw_allOnes4_zero :
    expectedPctRaw allOnes4 (cut_points allOnes4 2) 2 0 = 0 := by
  rw [cut_points_allOnes4]
  norm_num [expectedPctRaw, countIco, allOnes4, List.countP_cons]

/-- C6 counterexample: with `actual = expected = [1, 1, 1, 1]` and `k = 2`,
the first group has actual proportion `0` and floored expected proportion
`10⁻⁶`, and the float expression `(0 - 10⁻⁶) * np.log(0 / 10⁻⁶)` evaluates to
positive infinity (`np.log(0)` is `-inf` and the prefactor is negative), not
to a finite number as the claim states. -/
theorem c6_counterexample :
    actualPct allOnes4 (cut_points allOnes4 2) 0 = 0 ∧
    expectedPctRaw allOnes4 (cut_points allOnes4 2) 2 0 = 0 ∧
    flooredExpectedPct allOnes4 (cut_points allOnes4 2) 2 0 = 1 / 1000000 ∧
    group_psi_class (actualPct allOnes4 (cut_points allOnes4 2) 0)
        (flooredExpectedPct allOnes4 (cut_points allOnes4 2) 2 0) = FClass.posInf ∧
    group_psi_class (actualPct allOnes4 (cut_points allOnes4 2) 0)
        (flooredExpectedPct allOnes4 (cut_points allOnes4 2) 2 0) ≠ FClass.finite := by
  have hfl : flooredExpectedPct allOnes4 (cut_points allOnes4 2) 2 0 = 1 / 1000000 := by
    unfold flooredExpectedPct
    rw [if_pos expectedPctRaw_allOnes4_zero]
  refine ⟨actualPct_allOnes4_zero, expectedPctRaw_allOnes4_zero, hfl, ?_, ?_⟩
  · rw [actualPct_allOnes4_zero, hfl]
    norm_num [group_psi_class]
  · rw [actualPct_allOnes4_zero, hfl]
    norm_num [group_psi_class]
    intro hcontra
    exact FClass.noConfusion hcontra

/-- C6 amended: for every group whose actual proportion is `0` and whose raw
expected proportion is `0` (so the floor is applied), the per-group float
expression of the code evaluates to positive infinity, not to a finite
number; the actual proportion itself is never replaced by the floor
constant (the floor of lines 150-151 touches only `expected_perc`). -/
theorem c6_zero_actual_infinite (actual expected : List ℚ) (k i : ℕ)
    (ha : actualPct actual (cut_points actual k) i = 0)
    (he : expectedPctRaw expected (cut_points actual k) k i = 0) :
    flooredExpectedPct expected (cut_points actual k) k i = 1 / 1000000 ∧
    group_psi_class (actualPct actual (cut_points actual k) i)
      (flooredExpectedPct expected (cut_points actual k) k i) = FClass.posInf := by
  have hfl : flooredExpectedPct expected (cut_points actual k) k i = 1 / 1000000 := by
    unfold flooredExpectedPct
    rw [if_pos he]
  refine ⟨hfl, ?_⟩
  rw [ha, hfl]
  norm_num [group_psi_class]

/-- Witness for the amended C6 at `actual = expected = [1, 1, 1, 1]`, `k = 2`,
group index `0`. -/
theorem c6_zero_actual_infinite_witness :
    flooredExpectedPct allOnes4 (cut_points allOnes4 2) 2 0 = 1 / 1000000 ∧
    group_psi_class (actualPct allOnes4 (cut_points allOnes4 2) 0)
      (flooredExpectedPct allOnes4 (cut_points allOnes4 2) 2 0) = FClass.posInf :=
  c6_zero_actual_infinite allOnes4 allOnes4 2 0 actualPct_allOnes4_zero
    expectedPctRaw_allOnes4_zero
